import Mathlib

/-!
Verification development for the context-window management and session-state
subsystems of the `go-coding-agent` repository.

Go strings are modelled as lists of bytes (`GoStr`), matching Go's `len`,
indexing/slicing and `strings.Contains`, which all operate on UTF-8 bytes.
Go `int` values are modelled as `Int`.  The wall clock and message-id
generator (`time.Now`, `generateMessageID`) are external collaborators: the
timestamp and id of a message are taken as explicit arguments.
-/

namespace GoAgent

/-- A Go string, as its UTF-8 byte sequence (each byte a `Nat < 256`). -/
abbrev GoStr := List Nat

/-- UTF-8 encoding of a single code point (standard 1-4 byte encoding). -/
def utf8Bytes (c : Char) : List Nat :=
  let n := c.toNat
  if n < 128 then [n]
  else if n < 2048 then [192 + n / 64, 128 + n % 64]
  else if n < 65536 then [224 + n / 4096, 128 + (n / 64) % 64, 128 + n % 64]
  else [240 + n / 262144, 128 + (n / 4096) % 64, 128 + (n / 64) % 64, 128 + n % 64]

/-- The `GoStr` (UTF-8 byte list) of a Lean string literal. -/
def gostr (s : String) : GoStr :=
  s.data.foldr (fun c acc => utf8Bytes c ++ acc) []

/-- Does `s` start with `sub`?  (Byte-wise prefix test.) -/
def leadsWith : GoStr → GoStr → Bool
  | [], _ => true
  | _ :: _, [] => false
  | a :: as, b :: bs => a == b && leadsWith as bs

/-- Go `strings.Contains s sub`: `sub` occurs as a contiguous byte
subsequence of `s` (always true for the empty `sub`). -/
def goContains : GoStr → GoStr → Bool
  | [], sub => leadsWith sub []
  | b :: rest, sub => leadsWith sub (b :: rest) || goContains rest sub

/-- ASCII lower-casing of one byte. -/
def lowerByte (b : Nat) : Nat :=
  if 65 ≤ b ∧ b ≤ 90 then b + 32 else b

/-- Go `strings.ToLower`.  Go's version is Unicode-aware; over the ASCII
range (which is all the fixed keyword sets below use) it is exactly this
byte-wise map, and non-ASCII bytes are left unchanged by this model. -/
def goToLower (s : GoStr) : GoStr := s.map lowerByte

/-- `ConversationMessage` (context/window.go): a message with metadata. -/
structure ConversationMessage where
  Role : GoStr
  Content : GoStr
  Tokens : Int
  Timestamp : Int
  Important : Bool
  MessageID : GoStr
deriving DecidableEq

/-- `ContextWindow` (context/window.go): manages conversation context
within token limits. -/
structure ContextWindow where
  MaxTokens : Int
  ReservedTokens : Int
  SummaryTokens : Int
  Messages : List ConversationMessage
  ConversationSummary : GoStr
  ImportantMessages : List ConversationMessage
deriving DecidableEq

/-- `NewContextWindow` creates a new context window manager. -/
def NewContextWindow (maxTokens : Int) : ContextWindow :=
  { MaxTokens := maxTokens
    ReservedTokens := 2000
    SummaryTokens := 500
    Messages := []
    ConversationSummary := []
    ImportantMessages := [] }

/-- `EstimateTokens` provides a rough token estimate: `len(text) / 4`,
where `len` is Go's byte length. -/
def EstimateTokens (text : GoStr) : Int :=
  (text.length : Int) / 4

/-- `truncateContent` (helper): keeps `content` whole when its byte length
is at most `maxLen`, otherwise takes the first `maxLen` bytes and appends
an ellipsis. -/
def truncateContent (content : GoStr) (maxLen : Nat) : GoStr :=
  if content.length ≤ maxLen then content
  else content.take maxLen ++ gostr "..."

/-- The body of `createSummary`'s bucketing loop: append the message's
bullet line to the task, code, or other slice, trying the task keywords
first, then the code keywords. -/
def bucketStep (acc : List GoStr × List GoStr × List GoStr) (msg : ConversationMessage) :
    List GoStr × List GoStr × List GoStr :=
  let content := goToLower msg.Content
  let line := gostr "- " ++ msg.Role ++ gostr ": " ++ truncateContent msg.Content 100
  if goContains content (gostr "task") || goContains content (gostr "implement") ||
      goContains content (gostr "create") then
    (acc.1 ++ [line], acc.2.1, acc.2.2)
  else if goContains content (gostr "file") || goContains content (gostr "code") ||
      goContains content (gostr "function") then
    (acc.1, acc.2.1 ++ [line], acc.2.2)
  else
    (acc.1, acc.2.1, acc.2.2 ++ [line])

/-- `createSummary`: fold the removed messages into the running summary.
The source appends each message line to one of three bucket slices inside
a single loop; the loop is modelled as a left fold of `bucketStep` over
the messages. -/
def createSummary (cw : ContextWindow) (messages : List ConversationMessage) : GoStr :=
  if messages.length = 0 then cw.ConversationSummary
  else
    let base : GoStr :=
      if cw.ConversationSummary ≠ [] then cw.ConversationSummary ++ gostr "\n\n" else []
    let header : GoStr :=
      gostr "=== Conversation Summary (" ++ gostr (toString messages.length) ++
        gostr " messages) ===\n"
    let buckets := messages.foldl bucketStep ([], [], [])
    let taskMessages := buckets.1
    let codeMessages := buckets.2.1
    let otherMessages := buckets.2.2
    let taskSection : GoStr :=
      if taskMessages.length > 0 then
        gostr "Tasks/Implementation:\n" ++
          taskMessages.foldl (fun acc m => acc ++ m ++ gostr "\n") [] ++ gostr "\n"
      else []
    let codeSection : GoStr :=
      if codeMessages.length > 0 then
        gostr "Code/File Operations:\n" ++
          codeMessages.foldl (fun acc m => acc ++ m ++ gostr "\n") [] ++ gostr "\n"
      else []
    let otherSection : GoStr :=
      if otherMessages.length > 0 then
        gostr "Other Discussion:\n" ++
          otherMessages.foldl (fun acc m => acc ++ m ++ gostr "\n") []
      else []
    base ++ header ++ taskSection ++ codeSection ++ otherSection

/-- `calculateCurrentTokens`: total tokens in the current context
(sum of the stored per-message estimates, plus the summary's estimate
when a summary exists). -/
def calculateCurrentTokens (cw : ContextWindow) : Int :=
  (cw.Messages.foldl (fun total msg => total + msg.Tokens) 0) +
    (if cw.ConversationSummary ≠ [] then EstimateTokens cw.ConversationSummary else 0)

/-- The `for i, msg := range cw.Messages` loop body of `trimIfNeeded`:
a message is kept when it is important or among the last `recentCount`
(10) positions (`i >= totalMessages - recentCount`); otherwise it goes to
the summarize partition.  `total` is the length of the whole list and `i`
the index of the head of the remaining list. -/
def splitKeep (total : Int) : Int → List ConversationMessage →
    List ConversationMessage × List ConversationMessage
  | _, [] => ([], [])
  | i, msg :: rest =>
    let tail := splitKeep total (i + 1) rest
    if msg.Important || i ≥ total - 10 then (msg :: tail.1, tail.2)
    else (tail.1, msg :: tail.2)

/-- The keep partition `trimIfNeeded` would compute on the current
message list. -/
def keepPart (cw : ContextWindow) : List ConversationMessage :=
  (splitKeep (cw.Messages.length : Int) 0 cw.Messages).1

/-- The summarize partition `trimIfNeeded` would compute on the current
message list. -/
def summarizePart (cw : ContextWindow) : List ConversationMessage :=
  (splitKeep (cw.Messages.length : Int) 0 cw.Messages).2

/-- `trimIfNeeded`: trims the conversation if it exceeds token limits.
One pass: if usage is within `MaxTokens - ReservedTokens - SummaryTokens`
nothing happens; otherwise the messages are partitioned into keep
(important or among the 10 most recent) and summarize, the summarize
partition (when non-empty) is folded into the summary, and `Messages`
becomes the keep partition. -/
def trimIfNeeded (cw : ContextWindow) : ContextWindow :=
  let availableTokens := cw.MaxTokens - cw.ReservedTokens - cw.SummaryTokens
  let currentTokens := calculateCurrentTokens cw
  if currentTokens ≤ availableTokens then cw
  else
    let messagesToKeep := keepPart cw
    let messagesToSummarize := summarizePart cw
    let newSummary :=
      if messagesToSummarize.length ≠ 0 then createSummary cw messagesToSummarize
      else cw.ConversationSummary
    { cw with ConversationSummary := newSummary, Messages := messagesToKeep }

/-- The message record `AddMessage` constructs (the timestamp and
message id come from the clock, an external collaborator). -/
def mkMessage (role content : GoStr) (important : Bool) (ts : Int) (id : GoStr) :
    ConversationMessage :=
  { Role := role
    Content := content
    Tokens := EstimateTokens content
    Timestamp := ts
    Important := important
    MessageID := id }

/-- The two appends `AddMessage` performs before invoking trimming. -/
def appendMsg (cw : ContextWindow) (role content : GoStr) (important : Bool)
    (ts : Int) (id : GoStr) : ContextWindow :=
  let message := mkMessage role content important ts id
  { cw with
    ImportantMessages :=
      if important then cw.ImportantMessages ++ [message] else cw.ImportantMessages
    Messages := cw.Messages ++ [message] }

/-- `AddMessage`: adds a message to the context window, then trims. -/
def AddMessage (cw : ContextWindow) (role content : GoStr) (important : Bool)
    (ts : Int) (id : GoStr) : ContextWindow :=
  trimIfNeeded (appendMsg cw role content important ts id)

/-- `GetContextualMessages`: the summary (when non-empty) as one synthetic
system message, followed by all current messages.  The unset fields of the
synthetic message are Go zero values. -/
def GetContextualMessages (cw : ContextWindow) : List ConversationMessage :=
  (if cw.ConversationSummary ≠ [] then
    [{ Role := gostr "system"
       Content := cw.ConversationSummary
       Tokens := EstimateTokens cw.ConversationSummary
       Timestamp := 0
       Important := false
       MessageID := [] }]
  else []) ++ cw.Messages

/-- The `for ... { if ... break } }` loop of `MarkMessageImportant`:
returns the updated message list and the first matching (updated)
message, if any. -/
def markLoop (messageID : GoStr) : List ConversationMessage →
    List ConversationMessage × Option ConversationMessage
  | [] => ([], none)
  | msg :: rest =>
    if msg.MessageID = messageID then
      let updated := { msg with Important := true }
      (updated :: rest, some updated)
    else
      let tail := markLoop messageID rest
      (msg :: tail.1, tail.2)

/-- `MarkMessageImportant`: marks the first message with the given id as
important and appends the updated copy to `ImportantMessages`. -/
def MarkMessageImportant (cw : ContextWindow) (messageID : GoStr) : ContextWindow :=
  match markLoop messageID cw.Messages with
  | (msgs, some updated) =>
    { cw with Messages := msgs, ImportantMessages := cw.ImportantMessages ++ [updated] }
  | (msgs, none) => { cw with Messages := msgs }

/-- `ClearConversation`: clears all messages but keeps important ones. -/
def ClearConversation (cw : ContextWindow) : ContextWindow :=
  { cw with Messages := cw.ImportantMessages, ConversationSummary := [] }

/-- The fixed keyword list of `isImportantMessage` (agent.go). -/
def importantKeywords : List GoStr :=
  [gostr "error", gostr "failed", gostr "success", gostr "completed",
   gostr "implement", gostr "create", gostr "build", gostr "deploy",
   gostr "task:", gostr "goal:", gostr "objective:",
   gostr "important:", gostr "note:", gostr "warning:"]

/-- `isImportantMessage` (agent.go): true for system role, otherwise true
when the lower-cased content contains one of the fixed keywords. -/
def isImportantMessage (role content : GoStr) : Bool :=
  if role = gostr "system" then true
  else
    let lowered := goToLower content
    importantKeywords.any (fun kw => goContains lowered kw)

/-- One record of an `AddMessage` call (role, content, flag, and the
clock-provided timestamp and id). -/
structure AddRec where
  role : GoStr
  content : GoStr
  important : Bool
  ts : Int
  id : GoStr
deriving DecidableEq

/-- A whole session: a fresh window fed a sequence of `AddMessage` calls. -/
def runSession (maxTokens : Int) (adds : List AddRec) : ContextWindow :=
  adds.foldl (fun cw a => AddMessage cw a.role a.content a.important a.ts a.id)
    (NewContextWindow maxTokens)

/-- The message `AddMessage` builds from one call record. -/
def mkOf (a : AddRec) : ConversationMessage :=
  mkMessage a.role a.content a.important a.ts a.id

/-- Sum of the stored token estimates of a message sequence (the loop of
`calculateCurrentTokens`, applied to any message list). -/
def tokenSum (l : List ConversationMessage) : Int :=
  l.foldl (fun total msg => total + msg.Tokens) 0

/-- The pre-trim state during the `k`-th `AddMessage` of a session: the
state after the appends of that call and before its `trimIfNeeded`. -/
def stepState (maxTokens : Int) (adds : List AddRec) (k : Nat) (hk : k < adds.length) :
    ContextWindow :=
  let a := adds.get ⟨k, hk⟩
  appendMsg (runSession maxTokens (adds.take k)) a.role a.content a.important a.ts a.id

/-! ### Claim-side rendering of the summary (spec wording of C5)

These definitions follow the specification's words for the summary layout,
to be compared with `createSummary` above.  They are parameterized by the
truncation rule, since the byte/character distinction is exactly what is
at stake in C5. -/

/-- Is this byte the first byte of a UTF-8 encoded character? -/
def utf8IsStart (b : Nat) : Bool := b < 128 || 192 ≤ b

/-- Number of characters of a (well-formed) UTF-8 byte string. -/
def utf8CharCount (s : GoStr) : Nat := (s.filter utf8IsStart).length

/-- The bytes of the first `n` characters of a (well-formed) UTF-8 byte
string: stop at the `(n+1)`-st character-start byte; continuation bytes
always belong to the last started character. -/
def utf8TakeChars : Nat → GoStr → GoStr
  | _, [] => []
  | n, b :: rest =>
    if utf8IsStart b then
      match n with
      | 0 => []
      | m + 1 => b :: utf8TakeChars m rest
    else b :: utf8TakeChars n rest

/-- Modelled from the spec: truncation to the first 100 *characters*
(the claim's wording), as opposed to the source's byte-based
`truncateContent`. -/
def claimTruncateChars (content : GoStr) (maxLen : Nat) : GoStr :=
  if utf8CharCount content ≤ maxLen then content
  else utf8TakeChars maxLen content ++ gostr "..."

/-- Does a message fall in the task/implementation bucket? -/
def isTaskMsg (m : ConversationMessage) : Bool :=
  goContains (goToLower m.Content) (gostr "task") ||
    goContains (goToLower m.Content) (gostr "implement") ||
    goContains (goToLower m.Content) (gostr "create")

/-- Does a message fall in the code/file bucket (tried after the task
bucket)? -/
def isCodeMsg (m : ConversationMessage) : Bool :=
  !isTaskMsg m &&
    (goContains (goToLower m.Content) (gostr "file") ||
      goContains (goToLower m.Content) (gostr "code") ||
      goContains (goToLower m.Content) (gostr "function"))

/-- Does a message fall in the remaining (other) bucket? -/
def isOtherMsg (m : ConversationMessage) : Bool :=
  !isTaskMsg m && !isCodeMsg m

/-- One bulleted summary line, for a given truncation rule. -/
def bulletLine (trunc : GoStr → GoStr) (m : ConversationMessage) : GoStr :=
  gostr "- " ++ m.Role ++ gostr ": " ++ trunc m.Content

/-- Each line followed by a newline, concatenated. -/
def joinLines (lines : List GoStr) : GoStr :=
  (lines.map (fun l => l ++ gostr "\n")).flatten

/-- A topic bucket: header plus bulleted lines, omitted entirely when the
bucket is empty; `trailing` adds the blank line separating it from the
next bucket. -/
def renderBucket (header : GoStr) (lines : List GoStr) (trailing : Bool) : GoStr :=
  if lines = [] then []
  else header ++ joinLines lines ++ (if trailing then gostr "\n" else [])

/-- Modelled from the spec: the summary layout as the claim states it —
prior summary (kept whole, separated by a blank line when non-empty), one
delimited header with the message count, then the non-empty buckets in
task, code, other order. -/
def claimSummary (trunc : GoStr → GoStr) (cw : ContextWindow)
    (msgs : List ConversationMessage) : GoStr :=
  (if cw.ConversationSummary = [] then [] else cw.ConversationSummary ++ gostr "\n\n") ++
    gostr "=== Conversation Summary (" ++ gostr (toString msgs.length) ++
    gostr " messages) ===\n" ++
    renderBucket (gostr "Tasks/Implementation:\n")
      ((msgs.filter isTaskMsg).map (bulletLine trunc)) true ++
    renderBucket (gostr "Code/File Operations:\n")
      ((msgs.filter isCodeMsg).map (bulletLine trunc)) true ++
    renderBucket (gostr "Other Discussion:\n")
      ((msgs.filter isOtherMsg).map (bulletLine trunc)) false

/-! ### SessionContext (agent.go, package context) -/

/-- `CompletedTask`: a completed task in the session.  Timestamps are
modelled as integers; their textual encoding belongs to the collaborator
serialization layer. -/
structure CompletedTask where
  Description : String
  CompletedAt : Int
  FilesChanged : List String
deriving DecidableEq

/-- `SessionContext` (agent.go): the current session state.  Go maps are
modelled as association lists.  The `Bookmarks` field is modelled from the
spec: the bookmark mapping and its `SetBookmark`/`GetBookmark` methods are
absent from the provided sources although their callers
(`Agent.ListBookmarks` reads `sessionContext.Bookmarks`) are present;
§3 of the spec gives `bookmarks: mapping name -> absolute path`. -/
structure SessionContext where
  FocusedFiles : List String
  OpenFiles : List (String × String)
  WorkingDir : String
  ProjectRoot : String
  RecentFiles : List String
  CurrentTask : String
  TaskHistory : List CompletedTask
  UserPreferences : List (String × String)
  ProjectType : String
  Bookmarks : List (String × String)
  SessionID : String
  CreatedAt : Int
  UpdatedAt : Int
deriving DecidableEq

/-- The `for ... { if f == filepath { remove; break } }` loop of
`RemoveFocusedFile`: removes the first occurrence only. -/
def removeFirst (fp : String) : List String → List String
  | [] => []
  | f :: rest => if f = fp then rest else f :: removeFirst fp rest

/-- `RemoveFocusedFile`: removes a file from focused files (`ts` is the
clock value written to `UpdatedAt`). -/
def RemoveFocusedFile (sc : SessionContext) (fp : String) (ts : Int) : SessionContext :=
  { sc with FocusedFiles := removeFirst fp sc.FocusedFiles, UpdatedAt := ts }

/-- `AddFocusedFile`: remove any existing occurrence, prepend, keep only
the first 10 entries. -/
def AddFocusedFile (sc : SessionContext) (fp : String) (ts : Int) : SessionContext :=
  let sc1 := RemoveFocusedFile sc fp ts
  let fs := fp :: sc1.FocusedFiles
  { sc1 with
    FocusedFiles := if fs.length > 10 then fs.take 10 else fs
    UpdatedAt := ts }

/-! ### Persistence (SaveToFile / LoadFromFile)

`SaveToFile` marshals the full struct with `json.MarshalIndent` and hands
the bytes to the file system; `LoadFromFile` reads the bytes back and
unmarshals.  The file system and the JSON text layer are external
collaborators (spec §6: any self-describing structured encoding); the
record itself is modelled as a JSON value tree. -/

/-- A JSON value (strings, integers, arrays, objects). -/
inductive JVal where
  | s : String → JVal
  | n : Int → JVal
  | arr : List JVal → JVal
  | obj : List (String × JVal) → JVal

/-- Field lookup in a JSON object (first binding wins). -/
def getField : List (String × JVal) → String → Option JVal
  | [], _ => none
  | (k, v) :: rest, key => if k = key then some v else getField rest key

/-- Decode a JSON string. -/
def asStr : JVal → Option String
  | .s v => some v
  | _ => none

/-- Decode a JSON integer. -/
def asInt : JVal → Option Int
  | .n v => some v
  | _ => none

/-- Decode a homogeneous string array element list. -/
def decStrings : List JVal → Option (List String)
  | [] => some []
  | v :: rest =>
    match asStr v, decStrings rest with
    | some s, some r => some (s :: r)
    | _, _ => none

/-- Decode a JSON array of strings. -/
def asStrList : JVal → Option (List String)
  | .arr xs => decStrings xs
  | _ => none

/-- Decode an object whose values are all strings (a Go
`map[string]string`). -/
def decPairs : List (String × JVal) → Option (List (String × String))
  | [] => some []
  | (k, v) :: rest =>
    match asStr v, decPairs rest with
    | some s, some r => some ((k, s) :: r)
    | _, _ => none

/-- Decode a string-to-string object. -/
def asStrMap : JVal → Option (List (String × String))
  | .obj kvs => decPairs kvs
  | _ => none

/-- Encode one completed task. -/
def encodeTask (t : CompletedTask) : JVal :=
  .obj [("description", .s t.Description),
        ("completed_at", .n t.CompletedAt),
        ("files_changed", .arr (t.FilesChanged.map .s))]

/-- Decode one completed task. -/
def decTask (j : JVal) : Option CompletedTask :=
  match j with
  | .obj kvs =>
    match (getField kvs "description").bind asStr,
        (getField kvs "completed_at").bind asInt,
        (getField kvs "files_changed").bind asStrList with
    | some d, some c, some f =>
      some { Description := d, CompletedAt := c, FilesChanged := f }
    | _, _, _ => none
  | _ => none

/-- Decode a task array element list. -/
def decTasks : List JVal → Option (List CompletedTask)
  | [] => some []
  | v :: rest =>
    match decTask v, decTasks rest with
    | some t, some r => some (t :: r)
    | _, _ => none

/-- Decode a JSON array of completed tasks. -/
def asTaskList : JVal → Option (List CompletedTask)
  | .arr xs => decTasks xs
  | _ => none

/-- `SaveToFile`: the structured record `json.MarshalIndent` produces for
a `SessionContext` (keys are the struct's json tags, in declaration
order; the `bookmarks` key is modelled from the spec). -/
def SaveToFile (sc : SessionContext) : JVal :=
  .obj [("focused_files", .arr (sc.FocusedFiles.map .s)),
        ("open_files", .obj (sc.OpenFiles.map (fun kv => (kv.1, .s kv.2)))),
        ("working_dir", .s sc.WorkingDir),
        ("project_root", .s sc.ProjectRoot),
        ("recent_files", .arr (sc.RecentFiles.map .s)),
        ("current_task", .s sc.CurrentTask),
        ("task_history", .arr (sc.TaskHistory.map encodeTask)),
        ("user_preferences", .obj (sc.UserPreferences.map (fun kv => (kv.1, .s kv.2)))),
        ("project_type", .s sc.ProjectType),
        ("bookmarks", .obj (sc.Bookmarks.map (fun kv => (kv.1, .s kv.2)))),
        ("session_id", .s sc.SessionID),
        ("created_at", .n sc.CreatedAt),
        ("updated_at", .n sc.UpdatedAt)]

/-- `LoadFromFile`: unmarshal the structured record back into a
`SessionContext`. -/
def LoadFromFile (j : JVal) : Option SessionContext :=
  match j with
  | .obj kvs => do
    let ff ← (getField kvs "focused_files").bind asStrList
    let ofl ← (getField kvs "open_files").bind asStrMap
    let wd ← (getField kvs "working_dir").bind asStr
    let pr ← (getField kvs "project_root").bind asStr
    let rf ← (getField kvs "recent_files").bind asStrList
    let ct ← (getField kvs "current_task").bind asStr
    let th ← (getField kvs "task_history").bind asTaskList
    let up ← (getField kvs "user_preferences").bind asStrMap
    let pt ← (getField kvs "project_type").bind asStr
    let bm ← (getField kvs "bookmarks").bind asStrMap
    let sid ← (getField kvs "session_id").bind asStr
    let ca ← (getField kvs "created_at").bind asInt
    let ua ← (getField kvs "updated_at").bind asInt
    pure { FocusedFiles := ff, OpenFiles := ofl, WorkingDir := wd, ProjectRoot := pr,
           RecentFiles := rf, CurrentTask := ct, TaskHistory := th, UserPreferences := up,
           ProjectType := pt, Bookmarks := bm, SessionID := sid, CreatedAt := ca,
           UpdatedAt := ua }
  | _ => none

/-! ### Shared concrete scenario values -/

/-- A 40-byte keyword-free user message record (10 estimated tokens). -/
def demoRec : AddRec :=
  { role := gostr "user", content := List.replicate 40 97, important := false,
    ts := 0, id := gostr "msg_0_0" }

/-- Eleven copies of `demoRec`: one more than the recency floor. -/
def demoAdds : List AddRec := List.replicate 11 demoRec

/-- The pre-trim state of the 11th `AddMessage` of `demoAdds` on a
window with `maxTokens = 2600` (available budget 100). -/
def demoPend : ContextWindow :=
  appendMsg (runSession 2600 (demoAdds.take 10)) demoRec.role demoRec.content
    demoRec.important demoRec.ts demoRec.id

/-- Content of 51 copies of the two-byte character é: 102 bytes but only
51 characters. -/
def contentE : GoStr := gostr (String.mk (List.replicate 51 'é'))

/-- A keyword-free message whose content is 51 two-byte characters. -/
def demoMsgE : ConversationMessage := mkMessage (gostr "user") contentE false 0 (gostr "m")

/-- A window over budget whose trim summarizes one `demoMsgE`. -/
def demoCwE : ContextWindow :=
  { MaxTokens := 100, ReservedTokens := 0, SummaryTokens := 0,
    Messages := List.replicate 11 demoMsgE, ConversationSummary := [],
    ImportantMessages := [] }

/-- An `AddMessage` record with a 3-byte content (0 estimated tokens). -/
def shortRec : AddRec :=
  { role := gostr "user", content := gostr "abc", important := false,
    ts := 0, id := gostr "msg_0_1" }

/-- Twelve 3-byte messages: more than the recency floor, zero tokens. -/
def shortAdds : List AddRec := List.replicate 12 shortRec

/-- A concrete message with id `a`. -/
def demoM1 : ConversationMessage := mkMessage (gostr "user") (gostr "one") false 0 (gostr "a")

/-- A concrete message with id `b`. -/
def demoM2 : ConversationMessage := mkMessage (gostr "assistant") (gostr "two") false 0 (gostr "b")

/-- A concrete two-message window for exercising `MarkMessageImportant`. -/
def demoMarkCw : ContextWindow :=
  { MaxTokens := 100000, ReservedTokens := 2000, SummaryTokens := 500,
    Messages := [demoM1, demoM2], ConversationSummary := [],
    ImportantMessages := [] }

/-- Fifteen distinct file paths (with clock values) to focus in turn. -/
def demoFiles : List (String × Int) :=
  [("f01", 0), ("f02", 0), ("f03", 0), ("f04", 0), ("f05", 0),
   ("f06", 0), ("f07", 0), ("f08", 0), ("f09", 0), ("f10", 0),
   ("f11", 0), ("f12", 0), ("f13", 0), ("f14", 0), ("f15", 0)]

/-- A concrete session state with three focused files. -/
def demoSession : SessionContext :=
  { FocusedFiles := ["a", "b", "c"], OpenFiles := [], WorkingDir := "/w",
    ProjectRoot := "/w", RecentFiles := [], CurrentTask := "",
    TaskHistory := [], UserPreferences := [], ProjectType := "go",
    Bookmarks := [], SessionID := "s", CreatedAt := 0, UpdatedAt := 0 }

/-! ## Lemmas about the trim partition -/

theorem splitKeep_append (t : Int) (xs ys : List ConversationMessage) : ∀ i : Int,
    splitKeep t i (xs ++ ys) =
      ((splitKeep t i xs).1 ++ (splitKeep t (i + xs.length) ys).1,
       (splitKeep t i xs).2 ++ (splitKeep t (i + xs.length) ys).2) := by
  induction xs with
  | nil => intro i; simp [splitKeep]
  | cons x rest ih =>
    intro i
    have hc : i + (((x :: rest).length : Nat) : Int) = i + 1 + (rest.length : Int) := by
      simp only [List.length_cons]; push_cast; ring
    rw [hc, List.cons_append]
    simp only [splitKeep, ih (i + 1)]
    by_cases h : (x.Important || decide (i ≥ t - 10)) = true
    · rw [if_pos h, if_pos h]; rfl
    · rw [if_neg h, if_neg h]; rfl

theorem splitKeep_low (t : Int) (xs : List ConversationMessage) : ∀ i : Int,
    i + xs.length ≤ t - 10 →
    splitKeep t i xs = (xs.filter (·.Important), xs.filter (fun m => !m.Important)) := by
  induction xs with
  | nil => intro i _; simp [splitKeep]
  | cons x rest ih =>
    intro i h
    have hlen : ((x :: rest).length : Int) = (rest.length : Int) + 1 := by
      simp
    rw [hlen] at h
    have hi : ¬(i ≥ t - 10) := by omega
    have hrest : i + 1 + (rest.length : Int) ≤ t - 10 := by omega
    simp only [splitKeep, ih (i + 1) hrest]
    by_cases hx : x.Important = true
    · rw [if_pos (by simp [hx])]
      simp [List.filter_cons, hx]
    · rw [if_neg (by simp [hx, hi])]
      simp [List.filter_cons, hx]

theorem splitKeep_high (t : Int) (xs : List ConversationMessage) : ∀ i : Int,
    t - 10 ≤ i → splitKeep t i xs = (xs, []) := by
  induction xs with
  | nil => intro i _; simp [splitKeep]
  | cons x rest ih =>
    intro i h
    have hi : i ≥ t - 10 := h
    have hrest : t - 10 ≤ i + 1 := by omega
    simp only [splitKeep, ih (i + 1) hrest]
    rw [if_pos (by simp [hi])]

theorem splitKeep_all_important (t : Int) (xs : List ConversationMessage) : ∀ i : Int,
    (∀ m ∈ xs, m.Important = true) → splitKeep t i xs = (xs, []) := by
  induction xs with
  | nil => intro i _; simp [splitKeep]
  | cons x rest ih =>
    intro i h
    have hx : x.Important = true := h x (by simp)
    have hrest : ∀ m ∈ rest, m.Important = true := fun m hm => h m (by simp [hm])
    simp only [splitKeep, ih (i + 1) hrest]
    rw [if_pos (by simp [hx])]

/-- The partition of the trim loop, in closed form: the prefix before the
last 10 positions is filtered by importance, and the last 10 positions are
kept wholesale. -/
theorem splitKeep_eq (msgs : List ConversationMessage) :
    splitKeep (msgs.length : Int) 0 msgs =
      ((msgs.take (msgs.length - 10)).filter (·.Important) ++ msgs.drop (msgs.length - 10),
       (msgs.take (msgs.length - 10)).filter (fun m => !m.Important)) := by
  have main : ∀ t : Int, t = (msgs.length : Int) →
      splitKeep t 0 msgs =
        ((msgs.take (msgs.length - 10)).filter (·.Important) ++
          msgs.drop (msgs.length - 10),
         (msgs.take (msgs.length - 10)).filter (fun m => !m.Important)) := by
    intro t ht
    by_cases h : 10 ≤ msgs.length
    · have htk : (msgs.take (msgs.length - 10)).length = msgs.length - 10 := by
        rw [List.length_take]; omega
      conv_lhs => rw [← List.take_append_drop (msgs.length - 10) msgs]
      rw [splitKeep_append]
      rw [splitKeep_low t _ 0 (by rw [htk]; omega)]
      rw [splitKeep_high t _ _ (by rw [htk]; omega)]
      simp
    · have h10 : msgs.length - 10 = 0 := by omega
      rw [h10]
      simp only [List.take_zero, List.drop_zero, List.filter_nil, List.nil_append]
      exact splitKeep_high t _ 0 (by omega)
  exact main _ rfl

theorem splitKeep_fst_subset (t : Int) (xs : List ConversationMessage) : ∀ i : Int,
    ∀ m ∈ (splitKeep t i xs).1, m ∈ xs := by
  induction xs with
  | nil => intro i m hm; simp [splitKeep] at hm
  | cons x rest ih =>
    intro i m hm
    simp only [splitKeep] at hm
    by_cases h : (x.Important || decide (i ≥ t - 10)) = true
    · rw [if_pos h] at hm
      rcases List.mem_cons.mp hm with hm | hm
      · simp [hm]
      · exact List.mem_cons_of_mem _ (ih (i + 1) m hm)
    · rw [if_neg h] at hm
      exact List.mem_cons_of_mem _ (ih (i + 1) m hm)

theorem splitKeep_snd_subset (t : Int) (xs : List ConversationMessage) : ∀ i : Int,
    ∀ m ∈ (splitKeep t i xs).2, m ∈ xs := by
  induction xs with
  | nil => intro i m hm; simp [splitKeep] at hm
  | cons x rest ih =>
    intro i m hm
    simp only [splitKeep] at hm
    by_cases h : (x.Important || decide (i ≥ t - 10)) = true
    · rw [if_pos h] at hm
      exact List.mem_cons_of_mem _ (ih (i + 1) m hm)
    · rw [if_neg h] at hm
      rcases List.mem_cons.mp hm with hm | hm
      · simp [hm]
      · exact List.mem_cons_of_mem _ (ih (i + 1) m hm)

theorem splitKeep_snd_not_important (t : Int) (xs : List ConversationMessage) : ∀ i : Int,
    ∀ m ∈ (splitKeep t i xs).2, m.Important = false := by
  induction xs with
  | nil => intro i m hm; simp [splitKeep] at hm
  | cons x rest ih =>
    intro i m hm
    simp only [splitKeep] at hm
    by_cases h : (x.Important || decide (i ≥ t - 10)) = true
    · rw [if_pos h] at hm
      exact ih (i + 1) m hm
    · rw [if_neg h] at hm
      rcases List.mem_cons.mp hm with hm | hm
      · subst hm
        simp only [Bool.or_eq_true, not_or] at h
        exact Bool.not_eq_true _ ▸ h.1
      · exact ih (i + 1) m hm

theorem splitKeep_mem_important (t : Int) (xs : List ConversationMessage) : ∀ i : Int,
    ∀ m ∈ xs, m.Important = true → m ∈ (splitKeep t i xs).1 := by
  induction xs with
  | nil => intro i m hm; simp at hm
  | cons x rest ih =>
    intro i m hm himp
    rcases List.mem_cons.mp hm with hm | hm
    · subst hm
      simp only [splitKeep]
      rw [if_pos (by simp [himp])]
      exact List.mem_cons_self _ _
    · have hmem := ih (i + 1) m hm himp
      simp only [splitKeep]
      by_cases h : (x.Important || decide (i ≥ t - 10)) = true
      · rw [if_pos h]
        exact List.mem_cons_of_mem _ hmem
      · rw [if_neg h]
        exact hmem

/-! ## Trim-level lemmas -/

theorem foldl_tokens (l : List ConversationMessage) : ∀ init : Int,
    l.foldl (fun total msg => total + msg.Tokens) init = init + tokenSum l := by
  induction l with
  | nil => intro init; simp [tokenSum]
  | cons x rest ih =>
    intro init
    show rest.foldl _ (init + x.Tokens) = _
    rw [ih (init + x.Tokens)]
    have hx : tokenSum (x :: rest) = x.Tokens + tokenSum rest := by
      show rest.foldl _ (0 + x.Tokens) = _
      rw [ih (0 + x.Tokens)]
      ring
    rw [hx]
    ring

/-- The estimated token sum of the outbound sequence is exactly
`calculateCurrentTokens`. -/
theorem tokenSum_contextual (cw : ContextWindow) :
    tokenSum (GetContextualMessages cw) = calculateCurrentTokens cw := by
  by_cases h : cw.ConversationSummary = []
  · simp [GetContextualMessages, calculateCurrentTokens, h, tokenSum]
  · have h' : cw.ConversationSummary ≠ [] := h
    simp only [GetContextualMessages, calculateCurrentTokens, if_pos h', ne_eq, h,
      not_false_eq_true]
    show tokenSum (_ :: cw.Messages) = _
    rw [tokenSum]
    show cw.Messages.foldl _ (0 + EstimateTokens cw.ConversationSummary) = _
    rw [foldl_tokens]
    rw [tokenSum]
    simp only [if_true]
    ring

theorem trimIfNeeded_of_le (cw : ContextWindow)
    (h : calculateCurrentTokens cw ≤ cw.MaxTokens - cw.ReservedTokens - cw.SummaryTokens) :
    trimIfNeeded cw = cw := by
  simp only [trimIfNeeded]
  rw [if_pos h]

theorem trimIfNeeded_of_gt (cw : ContextWindow)
    (h : ¬(calculateCurrentTokens cw ≤ cw.MaxTokens - cw.ReservedTokens - cw.SummaryTokens)) :
    trimIfNeeded cw =
      { cw with
        ConversationSummary :=
          if (summarizePart cw).length ≠ 0 then createSummary cw (summarizePart cw)
          else cw.ConversationSummary
        Messages := keepPart cw } := by
  simp only [trimIfNeeded]
  rw [if_neg h]

/-- After one trim pass, a second partition of the kept messages would
summarize nothing: the kept list is importance-filtered prefix plus a
suffix of at most 10 messages. -/
theorem keepPart_stable (cw : ContextWindow) :
    splitKeep (((keepPart cw).length : Nat) : Int) 0 (keepPart cw) = (keepPart cw, []) := by
  have hk : keepPart cw =
      (cw.Messages.take (cw.Messages.length - 10)).filter (·.Important) ++
        cw.Messages.drop (cw.Messages.length - 10) := by
    rw [keepPart, splitKeep_eq]
  have hBlen : (cw.Messages.drop (cw.Messages.length - 10)).length ≤ 10 := by
    rw [List.length_drop]; omega
  rw [hk, splitKeep_append]
  rw [splitKeep_all_important _ _ _ (fun m hm => (List.mem_filter.mp hm).2)]
  rw [splitKeep_high _ _ _ (by rw [List.length_append]; push_cast; omega)]
  simp

/-- A state whose messages partition entirely into the keep side is a
fixed point of `trimIfNeeded`. -/
theorem trimIfNeeded_of_stable (d : ContextWindow)
    (hstable : splitKeep ((d.Messages.length : Nat) : Int) 0 d.Messages = (d.Messages, [])) :
    trimIfNeeded d = d := by
  by_cases h2 : calculateCurrentTokens d ≤ d.MaxTokens - d.ReservedTokens - d.SummaryTokens
  · exact trimIfNeeded_of_le d h2
  · rw [trimIfNeeded_of_gt d h2]
    have hsum : summarizePart d = [] := by rw [summarizePart, hstable]
    have hkeep : keepPart d = d.Messages := by rw [keepPart, hstable]
    rw [hsum, hkeep]
    simp

/-- C4: for every context-window state, calling `trimIfNeeded` twice in a
row with no intervening `AddMessage` produces exactly the same state
(`Messages` and `ConversationSummary` included) as calling it once: the
second call changes nothing. -/
theorem C4_trim_idempotent (cw : ContextWindow) :
    trimIfNeeded (trimIfNeeded cw) = trimIfNeeded cw := by
  by_cases h : calculateCurrentTokens cw ≤ cw.MaxTokens - cw.ReservedTokens - cw.SummaryTokens
  · rw [trimIfNeeded_of_le cw h, trimIfNeeded_of_le cw h]
  · rw [trimIfNeeded_of_gt cw h]
    apply trimIfNeeded_of_stable
    show splitKeep (((keepPart cw).length : Nat) : Int) 0 (keepPart cw) = (keepPart cw, [])
    exact keepPart_stable cw

/-- C6: `ClearConversation` sets the message list to the important
messages and empties the summary, while the important messages themselves
and the three token-budget fields are left unchanged. -/
theorem C6_clear_conversation (cw : ContextWindow) :
    (ClearConversation cw).Messages = cw.ImportantMessages ∧
    (ClearConversation cw).ConversationSummary = [] ∧
    (ClearConversation cw).ImportantMessages = cw.ImportantMessages ∧
    (ClearConversation cw).MaxTokens = cw.MaxTokens ∧
    (ClearConversation cw).ReservedTokens = cw.ReservedTokens ∧
    (ClearConversation cw).SummaryTokens = cw.SummaryTokens :=
  ⟨rfl, rfl, rfl, rfl, rfl, rfl⟩

/-- C1 (amended): after every `AddMessage`, either the outbound estimated
token sum is within `MaxTokens - ReservedTokens - SummaryTokens`, or the
trim has already kept only important and 10-most-recent messages (its
summarize partition is empty, so no further single pass could remove
more).  The global budget itself is not guaranteed: important messages,
the 10-message recency floor and the accumulated summary are always
retained, and their combined estimate can exceed the budget even when
every single message is within it. -/
theorem C1_budget_best_effort (cw : ContextWindow) (role content : GoStr) (imp : Bool)
    (ts : Int) (id : GoStr) :
    tokenSum (GetContextualMessages (AddMessage cw role content imp ts id)) ≤
        (AddMessage cw role content imp ts id).MaxTokens -
        (AddMessage cw role content imp ts id).ReservedTokens -
        (AddMessage cw role content imp ts id).SummaryTokens ∨
      summarizePart (AddMessage cw role content imp ts id) = [] := by
  have hadd : AddMessage cw role content imp ts id =
      trimIfNeeded (appendMsg cw role content imp ts id) := rfl
  rw [hadd]
  set pend := appendMsg cw role content imp ts id with hpend
  by_cases h : calculateCurrentTokens pend ≤
      pend.MaxTokens - pend.ReservedTokens - pend.SummaryTokens
  · left
    rw [trimIfNeeded_of_le pend h, tokenSum_contextual]
    exact h
  · right
    rw [trimIfNeeded_of_gt pend h]
    show (splitKeep (((keepPart pend).length : Nat) : Int) 0 (keepPart pend)).2 = []
    rw [keepPart_stable]

/-- Trimming only ever removes messages: the trimmed message list is a
sub-collection of the untrimmed one. -/
theorem trimIfNeeded_messages_subset (d : ContextWindow) :
    ∀ m ∈ (trimIfNeeded d).Messages, m ∈ d.Messages := by
  intro m hm
  by_cases h : calculateCurrentTokens d ≤ d.MaxTokens - d.ReservedTokens - d.SummaryTokens
  · rw [trimIfNeeded_of_le d h] at hm
    exact hm
  · rw [trimIfNeeded_of_gt d h] at hm
    exact splitKeep_fst_subset _ _ 0 m hm

/-- In a session whose importance flags are supplied by the classifier,
every message in the window carries its classifier value as its flag. -/
theorem flags_invariant (adds : List AddRec) : ∀ cw : ContextWindow,
    (∀ m ∈ cw.Messages, m.Important = isImportantMessage m.Role m.Content) →
    (∀ a ∈ adds, a.important = isImportantMessage a.role a.content) →
    ∀ m ∈ (adds.foldl (fun c a => AddMessage c a.role a.content a.important a.ts a.id)
        cw).Messages,
      m.Important = isImportantMessage m.Role m.Content := by
  induction adds with
  | nil => intro cw hcw _ m hm; exact hcw m hm
  | cons a rest ih =>
    intro cw hcw hflags m hm
    simp only [List.foldl_cons] at hm
    refine ih (AddMessage cw a.role a.content a.important a.ts a.id) ?_
      (fun b hb => hflags b (List.mem_cons_of_mem _ hb)) m hm
    intro m2 hm2
    have hm2' : m2 ∈ (appendMsg cw a.role a.content a.important a.ts a.id).Messages :=
      trimIfNeeded_messages_subset _ m2 hm2
    have hm2'' : m2 ∈ cw.Messages ++ [mkMessage a.role a.content a.important a.ts a.id] :=
      hm2'
    rcases List.mem_append.mp hm2'' with hmem | hmem
    · exact hcw m2 hmem
    · have : m2 = mkMessage a.role a.content a.important a.ts a.id := by
        simpa using hmem
      subst this
      exact hflags a (List.mem_cons_self _ _)

/-- C2: in any session whose importance flags equal the classifier output
(true for system role or when the lower-cased content contains one of the
fixed keywords), at every step of the session no classifier-important
message is placed in the summarize partition computed by trimming, and
every such message survives the trim in `Messages`. -/
theorem C2_importance_pinning (maxT : Int) (adds : List AddRec)
    (hflags : ∀ a ∈ adds, a.important = isImportantMessage a.role a.content)
    (k : Nat) (hk : k < adds.length) :
    (∀ m ∈ summarizePart (stepState maxT adds k hk),
      isImportantMessage m.Role m.Content = false) ∧
    (∀ m ∈ (stepState maxT adds k hk).Messages,
      isImportantMessage m.Role m.Content = true →
        m ∈ (trimIfNeeded (stepState maxT adds k hk)).Messages) := by
  have hrun : ∀ m ∈ (runSession maxT (adds.take k)).Messages,
      m.Important = isImportantMessage m.Role m.Content :=
    flags_invariant (adds.take k) (NewContextWindow maxT) (by intro m hm; simp [NewContextWindow] at hm)
      (fun a ha => hflags a (List.mem_of_mem_take ha))
  have hpend : ∀ m ∈ (stepState maxT adds k hk).Messages,
      m.Important = isImportantMessage m.Role m.Content := by
    intro m hm
    have hm' : m ∈ (runSession maxT (adds.take k)).Messages ++
        [mkOf (adds.get ⟨k, hk⟩)] := hm
    rcases List.mem_append.mp hm' with hmem | hmem
    · exact hrun m hmem
    · have : m = mkOf (adds.get ⟨k, hk⟩) := by simpa using hmem
      subst this
      exact hflags _ (List.get_mem adds k hk)
  constructor
  · intro m hm
    have h1 : m.Important = false :=
      splitKeep_snd_not_important _ _ 0 m hm
    have h2 : m ∈ (stepState maxT adds k hk).Messages :=
      splitKeep_snd_subset _ _ 0 m hm
    rw [← hpend m h2]
    exact h1
  · intro m hm himp
    have hImp : m.Important = true := by rw [hpend m hm, himp]
    by_cases h : calculateCurrentTokens (stepState maxT adds k hk) ≤
        (stepState maxT adds k hk).MaxTokens - (stepState maxT adds k hk).ReservedTokens -
          (stepState maxT adds k hk).SummaryTokens
    · rw [trimIfNeeded_of_le _ h]
      exact hm
    · rw [trimIfNeeded_of_gt _ h]
      show m ∈ keepPart (stepState maxT adds k hk)
      exact splitKeep_mem_important _ _ 0 m hm hImp

set_option maxRecDepth 100000 in
/-- C2 (witness): in the concrete 11-message session `demoAdds` (flags
supplied by the classifier), the message summarized at the 11th call is
indeed classifier-unimportant. -/
theorem C2_importance_pinning_witness :
    isImportantMessage (mkOf demoRec).Role (mkOf demoRec).Content = false :=
  (C2_importance_pinning 2600 demoAdds (by decide) 10 (by decide)).1 (mkOf demoRec)
    (by decide)

/-- Of two suffixes of the same list, the shorter is a suffix of the
longer. -/
theorem suffix_of_suffix_length_le {α : Type} (l1 l2 m : List α)
    (h1 : l1 <:+ m) (h2 : l2 <:+ m) (hlen : l1.length ≤ l2.length) : l1 <:+ l2 := by
  obtain ⟨u, hu⟩ := h1
  obtain ⟨v, hv⟩ := h2
  have e1 : u.length + l1.length = m.length := by rw [← hu]; simp
  have e2 : v.length + l2.length = m.length := by rw [← hv]; simp
  have hl1 : l1 = m.drop u.length := by rw [← hu, List.drop_left]
  have hl2 : l2 = m.drop v.length := by rw [← hv, List.drop_left]
  have hdd : m.drop u.length = (m.drop v.length).drop (u.length - v.length) := by
    rw [List.drop_drop]
    congr 1
    omega
  rw [hl1, hl2, hdd]
  exact List.drop_suffix _ _

theorem suffix_append_single {α : Type} (l m : List α) (x : α) (h : l <:+ m) :
    l ++ [x] <:+ m ++ [x] := by
  obtain ⟨u, hu⟩ := h
  exact ⟨u, by rw [← hu, List.append_assoc]⟩

/-- The last ten positions of the pre-trim message list survive the keep
partition as a suffix. -/
theorem drop_ten_suffix_keepPart (cw : ContextWindow) :
    cw.Messages.drop (cw.Messages.length - 10) <:+ keepPart cw := by
  rw [keepPart, splitKeep_eq]
  exact ⟨_, rfl⟩

/-- Session invariant: at every point of a session, the messages built
from the (up to) 10 most recent `AddMessage` calls form a suffix of the
window's message list. -/
theorem session_suffix (maxT : Int) (adds : List AddRec) :
    ((adds.map mkOf).drop (adds.length - 10)) <:+ (runSession maxT adds).Messages := by
  induction adds using List.reverseRecOn with
  | nil => simp [runSession, NewContextWindow]
  | append_singleton as a ih =>
    have hrun : runSession maxT (as ++ [a]) =
        AddMessage (runSession maxT as) a.role a.content a.important a.ts a.id := by
      rw [runSession, runSession, List.foldl_concat]
    set st := runSession maxT as with hst
    set n := as.length with hn
    have hmlen : (as.map mkOf).length = n := by rw [List.length_map]
    have hS2 : (as.map mkOf).drop (n + 1 - 10) <:+ st.Messages := by
      have hdd : (as.map mkOf).drop (n + 1 - 10) =
          ((as.map mkOf).drop (n - 10)).drop ((n + 1 - 10) - (n - 10)) := by
        rw [List.drop_drop]
        congr 1
        omega
      rw [hdd]
      exact (List.drop_suffix _ _).trans ih
    have hS' : ((as ++ [a]).map mkOf).drop ((as ++ [a]).length - 10) =
        (as.map mkOf).drop (n + 1 - 10) ++ [mkOf a] := by
      rw [List.map_append, List.length_append]
      simp only [List.map_cons, List.map_nil, List.length_cons, List.length_nil]
      rw [List.drop_append_of_le_length (by omega)]
    rw [hrun, hS']
    have hpend : (appendMsg st a.role a.content a.important a.ts a.id).Messages =
        st.Messages ++ [mkOf a] := rfl
    have hSfull : (as.map mkOf).drop (n + 1 - 10) ++ [mkOf a] <:+
        (appendMsg st a.role a.content a.important a.ts a.id).Messages := by
      rw [hpend]
      exact suffix_append_single _ _ _ hS2
    have hAM : AddMessage st a.role a.content a.important a.ts a.id =
        trimIfNeeded (appendMsg st a.role a.content a.important a.ts a.id) := rfl
    rw [hAM]
    set pend := appendMsg st a.role a.content a.important a.ts a.id with hpd
    by_cases h : calculateCurrentTokens pend ≤
        pend.MaxTokens - pend.ReservedTokens - pend.SummaryTokens
    · rw [trimIfNeeded_of_le pend h]
      exact hSfull
    · rw [trimIfNeeded_of_gt pend h]
      show (as.map mkOf).drop (n + 1 - 10) ++ [mkOf a] <:+ keepPart pend
      have hioh : ((as.map mkOf).drop (n - 10)).length ≤ st.Messages.length :=
        ih.length_le
      rw [List.length_drop, hmlen] at hioh
      have hplen : pend.Messages.length = st.Messages.length + 1 := by
        rw [hpend, List.length_append]
        rfl
      have hlenle : ((as.map mkOf).drop (n + 1 - 10) ++ [mkOf a]).length ≤
          (pend.Messages.drop (pend.Messages.length - 10)).length := by
        rw [List.length_append, List.length_drop, List.length_drop, hmlen, hplen]
        simp only [List.length_cons, List.length_nil]
        omega
      exact (suffix_of_suffix_length_le _ _ pend.Messages hSfull
        (List.drop_suffix _ _) hlenle).trans (drop_ten_suffix_keepPart pend)

/-- C3: once at least 10 messages have been added, immediately after the
trimming invoked by each `AddMessage` the 10 most-recently-added messages
are all present in `Messages`, in their original relative order (they form
a suffix of the message list), regardless of importance flags. -/
theorem C3_recency_floor (maxT : Int) (adds : List AddRec) (h : 10 ≤ adds.length) :
    ((adds.map mkOf).drop (adds.length - 10)).length = 10 ∧
    ((adds.map mkOf).drop (adds.length - 10)) <:+ (runSession maxT adds).Messages := by
  constructor
  · rw [List.length_drop, List.length_map]
    omega
  · exact session_suffix maxT adds

set_option maxRecDepth 100000 in
/-- C3 (witness): the concrete 11-call session `demoAdds` has at least 10
calls, and the last 10 of its messages are a suffix of the window's
message list. -/
theorem C3_recency_floor_witness :
    ((demoAdds.map mkOf).drop (demoAdds.length - 10)).length = 10 ∧
    ((demoAdds.map mkOf).drop (demoAdds.length - 10)) <:+
      (runSession 2600 demoAdds).Messages :=
  C3_recency_floor 2600 demoAdds (by decide)

set_option maxRecDepth 100000 in
/-- C1 (counterexample): an explicit session on a 2600-token window
(available budget 100): eleven 40-byte messages (10 estimated tokens each,
far below the budget) have been added — more than the recency floor of
10 — yet the outbound token sum after the last `AddMessage` exceeds the
budget, because the 10 kept recent messages plus the new summary already
do. -/
theorem C1_counterexample :
    demoAdds.length > 10 ∧
    (∀ a ∈ demoAdds,
      EstimateTokens a.content ≤
        (runSession 2600 demoAdds).MaxTokens - (runSession 2600 demoAdds).ReservedTokens -
          (runSession 2600 demoAdds).SummaryTokens) ∧
    tokenSum (GetContextualMessages (runSession 2600 demoAdds)) >
      (runSession 2600 demoAdds).MaxTokens - (runSession 2600 demoAdds).ReservedTokens -
        (runSession 2600 demoAdds).SummaryTokens := by
  decide

/-! ## C9: zero-token messages -/

/-- Contents shorter than 4 bytes are estimated at exactly 0 tokens. -/
theorem EstimateTokens_short (s : GoStr) (h : s.length < 4) : EstimateTokens s = 0 := by
  rw [EstimateTokens]
  omega

/-- A session all of whose contents are under 4 bytes never trims: the
window accumulates exactly the appended messages, keeps an empty summary,
and computes a zero token total (provided the budget is nonnegative,
i.e. `2500 ≤ maxTokens`). -/
theorem session_all_short (maxT : Int) (adds : List AddRec) (hmax : 2500 ≤ maxT) :
    (∀ a ∈ adds, a.content.length < 4) →
    (runSession maxT adds).Messages = adds.map mkOf ∧
    (runSession maxT adds).ConversationSummary = [] ∧
    (runSession maxT adds).MaxTokens = maxT ∧
    (runSession maxT adds).ReservedTokens = 2000 ∧
    (runSession maxT adds).SummaryTokens = 500 ∧
    calculateCurrentTokens (runSession maxT adds) = 0 := by
  induction adds using List.reverseRecOn with
  | nil =>
    intro _
    refine ⟨rfl, rfl, rfl, rfl, rfl, ?_⟩
    simp [runSession, NewContextWindow, calculateCurrentTokens]
  | append_singleton as a ih =>
    intro hshort
    obtain ⟨hm, hs, hM, hR, hS, hc⟩ :=
      ih (fun b hb => hshort b (List.mem_append_left _ hb))
    have hrun : runSession maxT (as ++ [a]) =
        AddMessage (runSession maxT as) a.role a.content a.important a.ts a.id := by
      rw [runSession, runSession, List.foldl_concat]
    set st := runSession maxT as with hst
    have htok : (mkOf a).Tokens = 0 :=
      EstimateTokens_short a.content (hshort a (by simp))
    have hpendMsgs : (appendMsg st a.role a.content a.important a.ts a.id).Messages =
        st.Messages ++ [mkOf a] := rfl
    have hpendSum : (appendMsg st a.role a.content a.important a.ts a.id).ConversationSummary =
        st.ConversationSummary := rfl
    set pend := appendMsg st a.role a.content a.important a.ts a.id with hpd
    have hsumst : tokenSum st.Messages = 0 := by
      have : calculateCurrentTokens st = tokenSum st.Messages + 0 := by
        rw [calculateCurrentTokens, tokenSum, hs]
        simp
      rw [this] at hc
      omega
    have hcp : calculateCurrentTokens pend = 0 := by
      rw [calculateCurrentTokens]
      have h1 : pend.Messages = st.Messages ++ [mkOf a] := hpendMsgs
      have h2 : pend.ConversationSummary = [] := by rw [hpendSum, hs]
      rw [h1, h2, List.foldl_concat]
      rw [foldl_tokens _ 0]
      rw [show (0 : Int) + tokenSum st.Messages = tokenSum st.Messages by ring, hsumst, htok]
      simp
    have hble : calculateCurrentTokens pend ≤
        pend.MaxTokens - pend.ReservedTokens - pend.SummaryTokens := by
      have hMp : pend.MaxTokens = maxT := hM
      have hRp : pend.ReservedTokens = 2000 := hR
      have hSp : pend.SummaryTokens = 500 := hS
      rw [hcp, hMp, hRp, hSp]
      omega
    have htr : AddMessage st a.role a.content a.important a.ts a.id = pend := by
      show trimIfNeeded pend = pend
      exact trimIfNeeded_of_le pend hble
    rw [hrun, htr]
    refine ⟨?_, by rw [hpendSum, hs], hM, hR, hS, hcp⟩
    rw [hpendMsgs, hm, List.map_append]
    rfl

/-- C9: the token estimate is the byte length divided by 4 with integer
division, so contents shorter than 4 bytes are estimated at exactly 0
tokens; consequently a session of arbitrarily many such messages (budget
nonnegative) keeps a zero computed token total, never fires trimming
(messages and summary stay exactly as appended), and the message list
grows without bound — one entry per call. -/
theorem C9_short_contents (maxT : Int) (adds : List AddRec) (hmax : 2500 ≤ maxT)
    (hshort : ∀ a ∈ adds, a.content.length < 4) :
    (∀ s : GoStr, EstimateTokens s = (s.length : Int) / 4) ∧
    (∀ s : GoStr, s.length < 4 → EstimateTokens s = 0) ∧
    (runSession maxT adds).Messages = adds.map mkOf ∧
    (runSession maxT adds).ConversationSummary = [] ∧
    calculateCurrentTokens (runSession maxT adds) = 0 ∧
    (runSession maxT adds).Messages.length = adds.length := by
  obtain ⟨hm, hs, _, _, _, hc⟩ := session_all_short maxT adds hmax hshort
  refine ⟨fun s => rfl, fun s h => EstimateTokens_short s h, hm, hs, hc, ?_⟩
  rw [hm, List.length_map]

/-- C9 (witness): twelve 3-byte messages on a 2500-token window leave
all 12 messages in place with a zero token total and empty summary. -/
theorem C9_short_contents_witness :
    (runSession 2500 shortAdds).Messages = shortAdds.map mkOf ∧
    (runSession 2500 shortAdds).ConversationSummary = [] ∧
    calculateCurrentTokens (runSession 2500 shortAdds) = 0 ∧
    (runSession 2500 shortAdds).Messages.length = shortAdds.length :=
  (C9_short_contents 2500 shortAdds (by decide) (by decide)).2.2

/-! ## C5: summary layout -/

theorem bucketStep_task (acc : List GoStr × List GoStr × List GoStr)
    (m : ConversationMessage) (ht : isTaskMsg m = true) :
    bucketStep acc m =
      (acc.1 ++ [bulletLine (fun c => truncateContent c 100) m], acc.2.1, acc.2.2) := by
  have e1 : (goContains (goToLower m.Content) (gostr "task") ||
      goContains (goToLower m.Content) (gostr "implement") ||
      goContains (goToLower m.Content) (gostr "create")) = isTaskMsg m := rfl
  simp only [bucketStep]
  rw [e1, if_pos ht]
  rfl

theorem bucketStep_code (acc : List GoStr × List GoStr × List GoStr)
    (m : ConversationMessage) (hc : isCodeMsg m = true) :
    bucketStep acc m =
      (acc.1, acc.2.1 ++ [bulletLine (fun c => truncateContent c 100) m], acc.2.2) := by
  have hparts := Bool.and_eq_true_iff.mp hc
  have ht : ¬(isTaskMsg m = true) := by
    intro h
    rw [h] at hparts
    exact absurd hparts.1 (by simp)
  have e1 : (goContains (goToLower m.Content) (gostr "task") ||
      goContains (goToLower m.Content) (gostr "implement") ||
      goContains (goToLower m.Content) (gostr "create")) = isTaskMsg m := rfl
  simp only [bucketStep]
  rw [e1, if_neg ht, if_pos hparts.2]
  rfl

theorem bucketStep_other (acc : List GoStr × List GoStr × List GoStr)
    (m : ConversationMessage) (ho : isOtherMsg m = true) :
    bucketStep acc m =
      (acc.1, acc.2.1, acc.2.2 ++ [bulletLine (fun c => truncateContent c 100) m]) := by
  have hparts := Bool.and_eq_true_iff.mp ho
  have ht : ¬(isTaskMsg m = true) := by
    intro h
    rw [h] at hparts
    exact absurd hparts.1 (by simp)
  have htf : isTaskMsg m = false := Bool.not_eq_true _ |>.mp ht
  have hcf : ¬((goContains (goToLower m.Content) (gostr "file") ||
      goContains (goToLower m.Content) (gostr "code") ||
      goContains (goToLower m.Content) (gostr "function")) = true) := by
    intro h
    have : isCodeMsg m = true := by
      rw [isCodeMsg, htf, h]
      rfl
    rw [this] at hparts
    exact absurd hparts.2 (by simp)
  have e1 : (goContains (goToLower m.Content) (gostr "task") ||
      goContains (goToLower m.Content) (gostr "implement") ||
      goContains (goToLower m.Content) (gostr "create")) = isTaskMsg m := rfl
  simp only [bucketStep]
  rw [e1, if_neg ht, if_neg hcf]
  rfl

/-- The three-way trichotomy of the bucket classification. -/
theorem bucket_trichotomy (m : ConversationMessage) :
    isTaskMsg m = true ∨ isCodeMsg m = true ∨ isOtherMsg m = true := by
  by_cases ht : isTaskMsg m = true
  · exact Or.inl ht
  · have htf : isTaskMsg m = false := Bool.not_eq_true _ |>.mp ht
    by_cases hc : isCodeMsg m = true
    · exact Or.inr (Or.inl hc)
    · have hcf : isCodeMsg m = false := Bool.not_eq_true _ |>.mp hc
      refine Or.inr (Or.inr ?_)
      rw [isOtherMsg, htf, hcf]
      rfl

theorem bucket_foldl (msgs : List ConversationMessage) : ∀ A B C : List GoStr,
    msgs.foldl bucketStep (A, B, C) =
      (A ++ (msgs.filter isTaskMsg).map (bulletLine (fun c => truncateContent c 100)),
       B ++ (msgs.filter isCodeMsg).map (bulletLine (fun c => truncateContent c 100)),
       C ++ (msgs.filter isOtherMsg).map (bulletLine (fun c => truncateContent c 100))) := by
  induction msgs with
  | nil => intro A B C; simp
  | cons m rest ih =>
    intro A B C
    rw [List.foldl_cons]
    rcases bucket_trichotomy m with ht | hc | ho
    · have htf := ht
      have hcode : isCodeMsg m = false := by rw [isCodeMsg, ht]; rfl
      have hother : isOtherMsg m = false := by rw [isOtherMsg, ht]; rfl
      rw [bucketStep_task (A, B, C) m ht]
      rw [ih]
      simp [List.filter_cons, ht, hcode, hother]
    · have ht : isTaskMsg m = false := by
        have hparts := Bool.and_eq_true_iff.mp hc
        cases h : isTaskMsg m
        · rfl
        · rw [h] at hparts; exact absurd hparts.1 (by simp)
      have hother : isOtherMsg m = false := by rw [isOtherMsg, hc]; simp
      rw [bucketStep_code (A, B, C) m hc]
      rw [ih]
      simp [List.filter_cons, ht, hc, hother]
    · have hparts := Bool.and_eq_true_iff.mp ho
      have ht : isTaskMsg m = false := by
        cases h : isTaskMsg m
        · rfl
        · rw [h] at hparts; exact absurd hparts.1 (by simp)
      have hcf : isCodeMsg m = false := by
        cases h : isCodeMsg m
        · rfl
        · rw [h] at hparts; exact absurd hparts.2 (by simp)
      rw [bucketStep_other (A, B, C) m ho]
      rw [ih]
      simp [List.filter_cons, ht, hcf, ho]

theorem foldl_writeLines (lines : List GoStr) : ∀ acc : GoStr,
    lines.foldl (fun acc m => acc ++ m ++ gostr "\n") acc = acc ++ joinLines lines := by
  induction lines with
  | nil => intro acc; simp [joinLines]
  | cons l rest ih =>
    intro acc
    rw [List.foldl_cons, ih]
    simp [joinLines, List.append_assoc]

theorem section_render (hdr : GoStr) (X : List GoStr) :
    (if X.length > 0 then
      hdr ++ X.foldl (fun acc m => acc ++ m ++ gostr "\n") [] ++ gostr "\n"
    else []) = renderBucket hdr X true := by
  by_cases h : X = []
  · subst h; rfl
  · rw [renderBucket, if_neg h, if_pos (by simpa [List.length_pos] using h)]
    rw [foldl_writeLines X []]
    simp

theorem section_render_last (hdr : GoStr) (X : List GoStr) :
    (if X.length > 0 then
      hdr ++ X.foldl (fun acc m => acc ++ m ++ gostr "\n") []
    else []) = renderBucket hdr X false := by
  by_cases h : X = []
  · subst h; rfl
  · rw [renderBucket, if_neg h, if_pos (by simpa [List.length_pos] using h)]
    rw [foldl_writeLines X []]
    simp

/-- `createSummary` produces exactly the claim's layout, with byte-based
truncation. -/
theorem createSummary_eq (cw : ContextWindow) (msgs : List ConversationMessage)
    (h : msgs ≠ []) :
    createSummary cw msgs = claimSummary (fun c => truncateContent c 100) cw msgs := by
  have h0 : ¬(msgs.length = 0) := by simpa [List.length_eq_zero] using h
  simp only [createSummary]
  rw [if_neg h0]
  rw [bucket_foldl msgs [] [] []]
  simp only [List.nil_append]
  rw [section_render, section_render, section_render_last]
  rw [claimSummary]
  have hbase : (if cw.ConversationSummary ≠ [] then cw.ConversationSummary ++ gostr "\n\n"
      else []) = (if cw.ConversationSummary = [] then [] else
        cw.ConversationSummary ++ gostr "\n\n") := by
    by_cases hb : cw.ConversationSummary = [] <;> simp [hb]
  rw [hbase]
  simp [List.append_assoc]

/-- C5 (amended): whenever trimming folds a non-empty set of messages
into the summary, the resulting summary is exactly: the entire previous
summary (blank-line separated when non-empty), one delimited header
carrying the count of summarized messages, then the non-empty topic
buckets in task/code/other order, each a bulleted list of
`- role: content` lines whose content is truncated to its first 100
*bytes* (not characters) with an appended ellipsis when longer than 100
bytes. -/
theorem C5_summary_layout (cw : ContextWindow)
    (h1 : ¬(calculateCurrentTokens cw ≤ cw.MaxTokens - cw.ReservedTokens - cw.SummaryTokens))
    (h2 : summarizePart cw ≠ []) :
    (trimIfNeeded cw).ConversationSummary =
      claimSummary (fun c => truncateContent c 100) cw (summarizePart cw) := by
  rw [trimIfNeeded_of_gt cw h1]
  show (if (summarizePart cw).length ≠ 0 then createSummary cw (summarizePart cw)
    else cw.ConversationSummary) = _
  rw [if_pos (by simpa [List.length_eq_zero] using h2)]
  exact createSummary_eq cw (summarizePart cw) h2

set_option maxRecDepth 400000 in
/-- C5 (witness): on a concrete over-budget window whose trim summarizes
one message, the written summary matches the claimed layout with
byte-based truncation. -/
theorem C5_summary_layout_witness :
    (trimIfNeeded demoPend).ConversationSummary =
      claimSummary (fun c => truncateContent c 100) demoPend (summarizePart demoPend) :=
  C5_summary_layout demoPend (by decide) (by decide)

set_option maxRecDepth 400000 in
/-- C5 (counterexample): with a 51-character (102-byte) content, trimming
folds a non-empty set of messages into the summary whose rendered line
does not match the claim's character-based truncation rule: the content
is not longer than 100 characters, yet the source still cuts it at 100
bytes and appends an ellipsis. -/
theorem C5_char_truncation_counterexample :
    ¬(calculateCurrentTokens demoCwE ≤
        demoCwE.MaxTokens - demoCwE.ReservedTokens - demoCwE.SummaryTokens) ∧
    summarizePart demoCwE ≠ [] ∧
    (∀ m ∈ summarizePart demoCwE, utf8CharCount m.Content ≤ 100) ∧
    (trimIfNeeded demoCwE).ConversationSummary ≠
      claimSummary (fun c => claimTruncateChars c 100) demoCwE (summarizePart demoCwE) := by
  decide

/-! ## C10: MarkMessageImportant -/

theorem markLoop_none (id0 : GoStr) (msgs : List ConversationMessage)
    (h : ∀ m ∈ msgs, m.MessageID ≠ id0) : markLoop id0 msgs = (msgs, none) := by
  induction msgs with
  | nil => rfl
  | cons x rest ih =>
    have hx : ¬(x.MessageID = id0) := h x (List.mem_cons_self _ _)
    simp only [markLoop]
    rw [if_neg hx, ih (fun m hm => h m (List.mem_cons_of_mem _ hm))]

theorem markLoop_found (id0 : GoStr) (m0 : ConversationMessage)
    (post : List ConversationMessage) (hm0 : m0.MessageID = id0) :
    ∀ pre : List ConversationMessage, (∀ m ∈ pre, m.MessageID ≠ id0) →
    markLoop id0 (pre ++ m0 :: post) =
      (pre ++ { m0 with Important := true } :: post, some { m0 with Important := true }) := by
  intro pre
  induction pre with
  | nil =>
    intro _
    simp only [List.nil_append, markLoop]
    rw [if_pos hm0]
  | cons x rest ih =>
    intro hpre
    have hx : ¬(x.MessageID = id0) := hpre x (List.mem_cons_self _ _)
    simp only [List.cons_append, markLoop, List.append_eq]
    rw [if_neg hx, ih (fun m hm => hpre m (List.mem_cons_of_mem _ hm))]

/-- C10: `MarkMessageImportant` with an id matching no current message
leaves the whole state unchanged; with a matching id, only the first
matching message gets its flag set, the updated copy is appended to
`ImportantMessages`, and everything else is untouched. -/
theorem C10_mark_important (cw : ContextWindow) (id0 : GoStr) :
    ((∀ m ∈ cw.Messages, m.MessageID ≠ id0) → MarkMessageImportant cw id0 = cw) ∧
    (∀ pre m0 post, cw.Messages = pre ++ m0 :: post →
      (∀ m ∈ pre, m.MessageID ≠ id0) → m0.MessageID = id0 →
      (MarkMessageImportant cw id0).Messages = pre ++ { m0 with Important := true } :: post ∧
      (MarkMessageImportant cw id0).ImportantMessages =
        cw.ImportantMessages ++ [{ m0 with Important := true }] ∧
      (MarkMessageImportant cw id0).ConversationSummary = cw.ConversationSummary ∧
      (MarkMessageImportant cw id0).MaxTokens = cw.MaxTokens ∧
      (MarkMessageImportant cw id0).ReservedTokens = cw.ReservedTokens ∧
      (MarkMessageImportant cw id0).SummaryTokens = cw.SummaryTokens) := by
  constructor
  · intro h
    simp only [MarkMessageImportant]
    rw [markLoop_none id0 cw.Messages h]
  · intro pre m0 post hsplit hpre hm0
    have hfound := markLoop_found id0 m0 post hm0 pre hpre
    simp [MarkMessageImportant, hsplit, hfound]

set_option maxRecDepth 100000 in
/-- C10 (witness): on a concrete two-message window, a non-matching id
changes nothing, and marking id `b` updates exactly the second message and
appends its updated copy to the important list. -/
theorem C10_mark_important_witness :
    MarkMessageImportant demoMarkCw (gostr "zzz") = demoMarkCw ∧
    (MarkMessageImportant demoMarkCw (gostr "b")).Messages =
      [demoM1, { demoM2 with Important := true }] ∧
    (MarkMessageImportant demoMarkCw (gostr "b")).ImportantMessages =
      [{ demoM2 with Important := true }] := by
  refine ⟨(C10_mark_important demoMarkCw (gostr "zzz")).1 (by decide), ?_, ?_⟩
  · exact ((C10_mark_important demoMarkCw (gostr "b")).2 [demoM1] demoM2 []
      (by decide) (by decide) (by decide)).1
  · exact ((C10_mark_important demoMarkCw (gostr "b")).2 [demoM1] demoM2 []
      (by decide) (by decide) (by decide)).2.1

/-! ## C7: session persistence round-trip -/

theorem decStrings_map (xs : List String) : decStrings (xs.map JVal.s) = some xs := by
  induction xs with
  | nil => rfl
  | cons x rest ih => simp [decStrings, asStr, ih]

theorem decPairs_map (kvs : List (String × String)) :
    decPairs (kvs.map (fun kv => (kv.1, JVal.s kv.2))) = some kvs := by
  induction kvs with
  | nil => rfl
  | cons kv rest ih => simp [decPairs, asStr, ih]

theorem decTask_encode (t : CompletedTask) : decTask (encodeTask t) = some t := by
  cases t with
  | mk d c f =>
    simp [decTask, encodeTask, getField, asStr, asInt, asStrList, decStrings_map]

theorem decTasks_map (ts : List CompletedTask) :
    decTasks (ts.map encodeTask) = some ts := by
  induction ts with
  | nil => rfl
  | cons t rest ih => simp [decTasks, decTask_encode, ih]

/-- C7: `SaveToFile` followed by `LoadFromFile` reproduces an equal
`SessionContext` for arbitrary focused/recent file lists, open files,
task history, preferences and bookmarks: every field of the data model
round-trips through the structured record with full fidelity. -/
theorem C7_session_roundtrip (sc : SessionContext) :
    LoadFromFile (SaveToFile sc) = some sc := by
  cases sc
  simp [SaveToFile, LoadFromFile, getField, asStr, asInt, asStrList, asStrMap, asTaskList,
    decStrings_map, decPairs_map, decTasks_map]

/-! ## C8: AddFocusedFile -/

theorem removeFirst_take (q : String) (L : List String) : ∀ n : Nat,
    q ∉ L.take n → (removeFirst q L).take n = L.take n := by
  induction L with
  | nil => intro n _; rfl
  | cons x rest ih =>
    intro n hq
    cases n with
    | zero => rfl
    | succ n =>
      rw [List.take_succ_cons] at hq
      have hx : ¬(x = q) := fun h => hq (by rw [h]; exact List.mem_cons_self _ _)
      have hrest : q ∉ rest.take n := fun h => hq (List.mem_cons_of_mem _ h)
      simp only [removeFirst]
      rw [if_neg hx, List.take_succ_cons, List.take_succ_cons, ih n hrest]

theorem removeFirst_length (q : String) (L : List String) (h : q ∈ L) :
    (removeFirst q L).length + 1 = L.length := by
  induction L with
  | nil => simp at h
  | cons x rest ih =>
    by_cases hx : x = q
    · simp only [removeFirst]
      rw [if_pos hx]
      rfl
    · have hq : q ∈ rest := by
        rcases List.mem_cons.mp h with h1 | h1
        · exact absurd h1.symm hx
        · exact h1
      simp only [removeFirst]
      rw [if_neg hx]
      simp only [List.length_cons]
      rw [← ih hq]

/-- One `AddFocusedFile` always leaves at most 10 focused files. -/
theorem AddFocusedFile_length_le (sc : SessionContext) (fp : String) (ts : Int) :
    (AddFocusedFile sc fp ts).FocusedFiles.length ≤ 10 := by
  simp only [AddFocusedFile, RemoveFocusedFile]
  by_cases h : (fp :: removeFirst fp sc.FocusedFiles).length > 10
  · rw [if_pos h]
    simp [List.length_take]
  · rw [if_neg h]
    omega

/-- After at least one focus operation the list is capped at 10. -/
theorem foldl_focus_length_le (files : List (String × Int)) (sc : SessionContext)
    (h : files ≠ []) :
    (files.foldl (fun s p => AddFocusedFile s p.1 p.2) sc).FocusedFiles.length ≤ 10 := by
  induction files using List.reverseRecOn with
  | nil => exact absurd rfl h
  | append_singleton fs q _ =>
    rw [List.foldl_concat]
    exact AddFocusedFile_length_le _ _ _

/-- Prefix characterization: folding up to 10 distinct files from any
starting state puts exactly those files, most-recent-first, at the front
of the focused list. -/
theorem addAll_take (files : List (String × Int)) : ∀ sc : SessionContext,
    (files.map Prod.fst).Nodup → files.length ≤ 10 →
    ((files.foldl (fun s p => AddFocusedFile s p.1 p.2) sc).FocusedFiles.take files.length)
      = (files.map Prod.fst).reverse := by
  induction files using List.reverseRecOn with
  | nil => intro sc _ _; rfl
  | append_singleton fs p ih =>
    intro sc hnod hle
    have hmap : (fs ++ [p]).map Prod.fst = fs.map Prod.fst ++ [p.1] := by
      simp
    rw [hmap] at hnod
    obtain ⟨hnod1, _, hdisj⟩ := List.nodup_append.mp hnod
    have hp : p.1 ∉ fs.map Prod.fst := fun hmem => hdisj hmem (List.mem_singleton.mpr rfl)
    have hfs10 : fs.length ≤ 10 := by
      rw [List.length_append] at hle
      omega
    have ihx := ih sc hnod1 (by omega)
    rw [List.foldl_concat]
    set prev := fs.foldl (fun s p => AddFocusedFile s p.1 p.2) sc with hprev
    have hnotin : p.1 ∉ prev.FocusedFiles.take fs.length := by
      rw [ihx]
      intro hmem
      exact hp (List.mem_reverse.mp hmem)
    have hlen1 : (fs ++ [p]).length = fs.length + 1 := by
      rw [List.length_append]
      rfl
    have htk : ∀ X : List String,
        (p.1 :: X).take (fs.length + 1) = p.1 :: X.take fs.length := fun X => by
      rw [List.take_succ_cons]
    have hcore : (AddFocusedFile prev p.1 p.2).FocusedFiles.take (fs.length + 1) =
        p.1 :: (removeFirst p.1 prev.FocusedFiles).take fs.length := by
      simp only [AddFocusedFile, RemoveFocusedFile]
      by_cases h : (p.1 :: removeFirst p.1 prev.FocusedFiles).length > 10
      · rw [if_pos h, List.take_take]
        have : min (fs.length + 1) 10 = fs.length + 1 := by
          rw [List.length_append] at hle
          simp at hle
          omega
        rw [this, htk]
      · rw [if_neg h, htk]
    rw [hmap, List.reverse_append, hlen1, hcore,
      removeFirst_take p.1 prev.FocusedFiles fs.length hnotin, ihx]
    rfl

/-- Focusing at least 10 distinct files from any starting state leaves
exactly the 10 most recent, most-recent-first. -/
theorem addAll_ge10 (files : List (String × Int)) : ∀ sc : SessionContext,
    (files.map Prod.fst).Nodup → 10 ≤ files.length →
    (files.foldl (fun s p => AddFocusedFile s p.1 p.2) sc).FocusedFiles =
      ((files.map Prod.fst).drop (files.length - 10)).reverse := by
  induction files with
  | nil => intro sc _ h; simp at h
  | cons p rest ih =>
    intro sc hnod h10
    by_cases hr : 10 ≤ rest.length
    · rw [List.foldl_cons]
      have hnod' : (rest.map Prod.fst).Nodup := by
        simp only [List.map_cons] at hnod
        exact hnod.of_cons
      rw [ih (AddFocusedFile sc p.1 p.2) hnod' hr]
      have hdrop : ((p :: rest).map Prod.fst).drop ((p :: rest).length - 10) =
          (rest.map Prod.fst).drop (rest.length - 10) := by
        rw [List.map_cons, List.length_cons]
        rw [show rest.length + 1 - 10 = (rest.length - 10) + 1 by omega]
        rfl
      rw [hdrop]
    · have hlen : (p :: rest).length = 10 := by
        simp only [List.length_cons] at h10 ⊢
        omega
      have htake := addAll_take (p :: rest) sc hnod (by omega)
      rw [hlen] at htake
      have hle10 : ((p :: rest).foldl (fun s p => AddFocusedFile s p.1 p.2)
          sc).FocusedFiles.length ≤ 10 :=
        foldl_focus_length_le _ sc (by simp)
      have hfull : ((p :: rest).foldl (fun s p => AddFocusedFile s p.1 p.2)
          sc).FocusedFiles.take 10 =
          ((p :: rest).foldl (fun s p => AddFocusedFile s p.1 p.2) sc).FocusedFiles :=
        List.take_of_length_le hle10
      rw [hfull] at htake
      rw [htake, hlen]
      rw [show (10 : Nat) - 10 = 0 by omega]
      rfl

/-- C8: `AddFocusedFile` removes any existing occurrence of the path,
prepends it, and truncates to 10: from any starting state, adding 15
distinct files leaves exactly the 10 most-recently-added in
most-recent-first order; and adding a path already present (in a state
respecting the data model's 10-entry cap) moves it to the front without
changing the list's length. -/
theorem C8_focused_files (sc : SessionContext) (files : List (String × Int))
    (h15 : files.length = 15) (hnod : (files.map Prod.fst).Nodup) :
    ((files.foldl (fun s p => AddFocusedFile s p.1 p.2) sc).FocusedFiles =
      ((files.map Prod.fst).drop 5).reverse) ∧
    (∀ (p : String) (ts : Int), p ∈ sc.FocusedFiles → sc.FocusedFiles.length ≤ 10 →
      (AddFocusedFile sc p ts).FocusedFiles = p :: removeFirst p sc.FocusedFiles ∧
      (AddFocusedFile sc p ts).FocusedFiles.length = sc.FocusedFiles.length) := by
  constructor
  · rw [addAll_ge10 files sc hnod (by omega), h15]
  · intro p ts hp hlen
    have hrl : (removeFirst p sc.FocusedFiles).length + 1 = sc.FocusedFiles.length :=
      removeFirst_length p _ hp
    have hc : ¬((p :: removeFirst p sc.FocusedFiles).length > 10) := by
      simp only [List.length_cons]
      omega
    constructor
    · simp only [AddFocusedFile, RemoveFocusedFile]
      rw [if_neg hc]
    · simp only [AddFocusedFile, RemoveFocusedFile]
      rw [if_neg hc]
      simp only [List.length_cons]
      omega

set_option maxRecDepth 100000 in
/-- C8 (witness): folding the 15 concrete files over a concrete session
(whose focused list already holds 3 entries) leaves files f06..f15 in
most-recent-first order, and re-adding the already-present path `b` moves
it to the front without changing the length. -/
theorem C8_focused_files_witness :
    ((demoFiles.foldl (fun s p => AddFocusedFile s p.1 p.2) demoSession).FocusedFiles =
      ((demoFiles.map Prod.fst).drop 5).reverse) ∧
    (AddFocusedFile demoSession "b" 0).FocusedFiles =
      "b" :: removeFirst "b" demoSession.FocusedFiles ∧
    (AddFocusedFile demoSession "b" 0).FocusedFiles.length =
      demoSession.FocusedFiles.length := by
  have h := C8_focused_files demoSession demoFiles (by decide) (by decide)
  exact ⟨h.1, (h.2 "b" 0 (by decide) (by decide)).1, (h.2 "b" 0 (by decide) (by decide)).2⟩

end GoAgent
